import Mathlib

/-!
Verification of the structural XML pattern matcher in `XMLparse.py`.

The Python module works on `xml.etree.ElementTree` elements: a tag string, an
attribute dictionary, optional text, and an ordered list of children.  We embed
such elements as the inductive `Node` below and translate every core function of
the module (`listify_children`, `setwise_match`, `attribute_subset_match`,
`match_structures`, `one_level_in`, `exhaustive_match`, `trim_branches`,
`search`, `exhaustive_search`) into Lean, keeping the source's names.

Python exceptions are made explicit: the `KeyError` handler inside
`attribute_subset_match` is modelled with `Except`, and the `IndexError` that
`trim_branches` can hit (`matched_children[t_child_index]` on an exhausted
list) makes the embedded `trim_branches` return an `Option Node`, `none`
standing for the uncaught exception.
-/

/-- An `xml.etree.ElementTree` element: tag, attribute dictionary (as an
association list in insertion order), optional text, ordered children. -/
inductive Node where
  | mk (tag : String) (attrib : List (String × String)) (text : Option String)
       (children : List Node)

/-- Element tag. -/
def Node.tag : Node → String
  | .mk t _ _ _ => t

/-- Element attributes, in dictionary insertion order. -/
def Node.attrib : Node → List (String × String)
  | .mk _ a _ _ => a

/-- Element text. -/
def Node.text : Node → Option String
  | .mk _ _ x _ => x

/-- Element children; `len(elem)` and iteration over an element use these. -/
def Node.children : Node → List Node
  | .mk _ _ _ c => c

/-- Number of nodes in a tree (used only as a termination measure). -/
def nsize : Node → Nat
  | .mk _ _ _ cs => 1 + lsize cs
where
  /-- Total number of nodes in a forest. -/
  lsize : List Node → Nat
  | [] => 0
  | c :: cs => nsize c + lsize cs

theorem nsize_def (n : Node) : nsize n = 1 + nsize.lsize n.children := by
  cases n; simp [nsize, Node.children]

theorem nsize_pos (n : Node) : 1 ≤ nsize n := by
  rw [nsize_def]; omega

theorem lsize_cons (c : Node) (cs : List Node) :
    nsize.lsize (c :: cs) = nsize c + nsize.lsize cs := by
  simp [nsize.lsize]

theorem lsize_nil : nsize.lsize [] = 0 := by simp [nsize.lsize]

theorem lsize_append (a b : List Node) :
    nsize.lsize (a ++ b) = nsize.lsize a + nsize.lsize b := by
  induction a with
  | nil => simp [lsize_nil]
  | cons c cs ih => simp [lsize_cons, ih]; omega

theorem nsize_le_of_mem {c : Node} {l : List Node} (h : c ∈ l) :
    nsize c ≤ nsize.lsize l := by
  induction l with
  | nil => cases h
  | cons d ds ih =>
    rcases List.mem_cons.mp h with rfl | h2
    · rw [lsize_cons]; omega
    · have := ih h2; rw [lsize_cons]; omega

/-! ## Regular expressions

`attribute_subset_match` calls Python's `re.match` twice: once with the fixed
wrapper pattern `re\{.*\}` and once with the text sliced out of a target
attribute value.  `re.match(p, s)` anchors `p` at the start of `s` and succeeds
without having to consume all of `s`.  We model the engine for the pattern
constructs the program's data can exercise here: literal characters, backslash
escapes, the `.` wildcard (anything but a newline), the `*` repetition and the
`$` end anchor; a leading `^` is redundant under `re.match` and is stripped.
The pattern text is first tokenized, then matched with backtracking. -/

/-- One regex token. -/
inductive RTok where
  | lit (c : Char)
  | litStar (c : Char)
  | dot
  | dotStar
  | endAnchor
deriving DecidableEq

/-- Tokenize a Python regex text: an atom is an escaped character, a `.`, or a
literal character; a `*` right after an atom turns it into a repetition; `$`
is the end anchor. -/
def rtokenize : List Char → List RTok
  | [] => []
  | '\\' :: d :: '*' :: rest => .litStar d :: rtokenize rest
  | '\\' :: d :: rest => .lit d :: rtokenize rest
  | ['\\'] => [.lit '\\']
  | '.' :: '*' :: rest => .dotStar :: rtokenize rest
  | '.' :: rest => .dot :: rtokenize rest
  | '$' :: rest => .endAnchor :: rtokenize rest
  | c :: '*' :: rest => .litStar c :: rtokenize rest
  | c :: rest => .lit c :: rtokenize rest

/-- Backtracking matcher: does the token list match a prefix of `s`?
`.` and `.*` refuse a newline, as in Python; `$` accepts the end of the
string or a sole trailing newline, as Python's `$` does. -/
def rmatch : List RTok → List Char → Bool
  | [], _ => true
  | .endAnchor :: rest, s => (s.isEmpty || s == [Char.ofNat 10]) && rmatch rest s
  | .lit _ :: _, [] => false
  | .lit c :: rest, x :: xs => x == c && rmatch rest xs
  | .dot :: _, [] => false
  | .dot :: rest, x :: xs => decide (x ≠ Char.ofNat 10) && rmatch rest xs
  | .litStar _ :: rest, [] => rmatch rest []
  | .litStar c :: rest, x :: xs =>
      rmatch rest (x :: xs) || (x == c && rmatch (.litStar c :: rest) xs)
  | .dotStar :: rest, [] => rmatch rest []
  | .dotStar :: rest, x :: xs =>
      rmatch rest (x :: xs) ||
        (decide (x ≠ Char.ofNat 10) && rmatch (.dotStar :: rest) xs)
termination_by p s => (s.length, p.length)

/-- A leading `^` is a no-op under `re.match`'s start anchoring. -/
def stripCaret : List Char → List Char
  | '^' :: rest => rest
  | p => p

/-- Python's `re.match(p, s)` as a boolean: anchored at the start of `s`,
not required to span all of `s`. -/
def reMatch (p s : String) : Bool :=
  rmatch (rtokenize (stripCaret p.data)) s.data

/-! ## Attribute matching (`attribute_subset_match` in XMLparse.py) -/

/-- The fixed wrapper pattern `re\x7b.*\x7d` of line 82 of XMLparse.py. -/
def wrapperPattern : String := "re\\\x7b.*\\\x7d"

/-- Python `tv[3:-1]`: drop the three characters `re\x7b` and the final
character. -/
def pySlice3m1 (s : String) : String := ⟨(s.data.drop 3).dropLast⟩

/-- Dictionary lookup `d[key]` on the attribute association list; `none`
models a raised `KeyError`. -/
def lookupAttr : List (String × String) → String → Option String
  | [], _ => none
  | (k2, v) :: rest, k => if k2 == k then some v else lookupAttr rest k

/-- The per-key comparison of the loop body of `attribute_subset_match`
(lines 82-85): a target value whose string form `re.match`es the wrapper
pattern is stripped to `tv[3:-1]` and used as a regex against the source
value, any other target value must be equal to the source value. -/
def attribute_matches (tv sv : String) : Bool :=
  if reMatch wrapperPattern tv then reMatch (pySlice3m1 tv) sv else tv == sv

/-- The `for key in target_node.attrib` loop inside the `try` block of
`attribute_subset_match`: `Except.error ()` models a `KeyError` escaping from
`source_node.attrib[key]`, `Except.ok b` a `return` with value `b` (or falling
off the loop with `true`). -/
def attrLoop (source_attrib : List (String × String)) :
    List (String × String) → Except Unit Bool
  | [] => .ok true
  | (key, tv) :: rest =>
    match lookupAttr source_attrib key with
    | none => .error ()
    | some sv =>
      if attribute_matches tv sv then attrLoop source_attrib rest else .ok false

/-- `attribute_subset_match(source_node, target_node)` of XMLparse.py:
all attributes of the target must be present and matching in the source;
the `except KeyError` handler converts a missing source key into `False`. -/
def attribute_subset_match (source_node target_node : Node) : Bool :=
  if target_node.attrib.length == 0 then true
  else if source_node.attrib.length < target_node.attrib.length then false
  else
    match attrLoop source_node.attrib target_node.attrib with
    | .error _ => false
    | .ok b => b

/-! ## Structural matching (`setwise_match`, `match_structures`) -/

/-- `listify_children(root)` of XMLparse.py: the list of subtrees of `root`. -/
def listify_children (root : Node) : List Node := root.children

mutual

/-- `match_structures(source_root, target_root)` of XMLparse.py: root-level
structural match — tag equality, attribute subset match, and order-sensitive
child subset match. -/
def match_structures (source_root target_root : Node) : Bool :=
  source_root.tag == target_root.tag
    && attribute_subset_match source_root target_root
    && setwise_match source_root target_root
termination_by 4 * (nsize source_root + nsize target_root) + 2
decreasing_by omega

/-- `setwise_match(source_root, target_root)` of XMLparse.py: every target
child must find a "friend" among the source children, scanning left to right
without reuse. -/
def setwise_match (source_root target_root : Node) : Bool :=
  if (listify_children target_root).length == 0 then true
  else if (listify_children source_root).length <
      (listify_children target_root).length then false
  else setwiseScan (listify_children source_root) (listify_children target_root)
termination_by 4 * (nsize source_root + nsize target_root) + 1
decreasing_by
  simp only [listify_children, nsize_def]; omega

/-- The friend-seeking loop of `setwise_match` (lines 49-63): the cursor over
the source children never moves back; after a friend is found the remaining
source children must still outnumber the remaining target children
(the check `source_size - j < target_size - (i + 1)` fails the match even
when a friend was just found). -/
def setwiseScan : List Node → List Node → Bool
  | _, [] => true
  | [], _ :: _ => false
  | s :: ss, t :: ts =>
    if match_structures s t then
      decide (ts.length ≤ ss.length) && setwiseScan ss ts
    else
      setwiseScan ss (t :: ts)
termination_by sc tc => 4 * (nsize.lsize sc + nsize.lsize tc) + 3
decreasing_by
  all_goals simp only [lsize_cons]
  all_goals have h1 := nsize_pos s; have h2 := nsize_pos t; omega

end

/-! ## Traversal (`one_level_in`, `exhaustive_match`) -/

/-- `one_level_in(parent_list)` of XMLparse.py: all first-order children of
each element of the list, in order. -/
def one_level_in : List Node → List Node
  | [] => []
  | parent :: rest => parent.children ++ one_level_in rest

theorem lsize_one_level_in_add (l : List Node) :
    nsize.lsize (one_level_in l) + l.length = nsize.lsize l := by
  induction l with
  | nil => simp [one_level_in, lsize_nil]
  | cons p ps ih =>
    simp only [one_level_in, lsize_append, lsize_cons, List.length_cons,
      nsize_def p]
    omega

theorem lsize_one_level_in_lt {l : List Node} (h : l ≠ []) :
    nsize.lsize (one_level_in l) < nsize.lsize l := by
  have := lsize_one_level_in_add l
  have : l.length ≠ 0 := fun h0 => h (List.length_eq_zero.mp h0)
  omega

/-- The `while len(parent_list) > 0` loop of the `bfs` branch of
`exhaustive_match` (lines 113-118): test every node of the current level,
then move one level in. -/
def bfsAnyLoop (target_root : Node) (parent_list : List Node) : Bool :=
  match parent_list with
  | [] => false
  | p :: ps =>
    if (p :: ps).any (fun parent => match_structures parent target_root)
    then true
    else bfsAnyLoop target_root (one_level_in (p :: ps))
termination_by nsize.lsize parent_list
decreasing_by
  exact lsize_one_level_in_lt (List.cons_ne_nil _ _)

mutual

/-- `exhaustive_match(source_root, target_root, mode)` of XMLparse.py: does
the target structure occur anywhere within the source?  The root itself is
tested first, before the mode dispatch; `bfs` then walks the levels below the
root and `dfs` recurses into each child; any other mode gives `False`. -/
def exhaustive_match (source_root target_root : Node) (mode : String) : Bool :=
  if match_structures source_root target_root then true
  else if mode == "bfs" then bfsAnyLoop target_root source_root.children
  else if mode == "dfs" then exMatchChildren target_root source_root.children
  else false
termination_by 2 * nsize source_root
decreasing_by simp only [nsize_def]; omega

/-- The `for child in source_root` loop of the `dfs` branch of
`exhaustive_match` (lines 121-123). -/
def exMatchChildren (target_root : Node) : List Node → Bool
  | [] => false
  | child :: rest =>
    exhaustive_match child target_root "dfs" || exMatchChildren target_root rest
termination_by l => 2 * nsize.lsize l + 1
decreasing_by
  all_goals simp only [lsize_cons]
  all_goals have := nsize_pos c; omega

end

/-! ## Trimming (`trim_branches`) -/

mutual

/-- `trim_branches(matched_root, target_root)` of XMLparse.py: copy the top
level of `matched_root` (tag, attributes, text), and when the target has
children, re-run the leftmost friend scan over the matched children, popping
non-matching children before each friend and any children after the last
friend, then recursively trim each friend against its target child.  A `none`
result models the `IndexError` raised by `matched_children[t_child_index]`
when the popping loop exhausts the list. -/
def trim_branches (matched_root target_root : Node) : Option Node :=
  if (listify_children target_root).length == 0 then
    some (.mk matched_root.tag matched_root.attrib matched_root.text [])
  else
    match trimChildren (listify_children matched_root)
        (listify_children target_root) with
    | none => none
    | some cs =>
      some (.mk matched_root.tag matched_root.attrib matched_root.text cs)
termination_by 4 * (nsize matched_root + nsize target_root) + 1
decreasing_by simp only [listify_children, nsize_def]; omega

/-- The friend scan of `trim_branches` (lines 145-156), fused with the
recursive trimming of each friend: children before a friend are popped,
trailing children after the last friend are dropped, and a missing friend is
the `IndexError` (`none`). -/
def trimChildren : List Node → List Node → Option (List Node)
  | _, [] => some []
  | [], _ :: _ => none
  | s :: ss, t :: ts =>
    if match_structures s t then
      match trim_branches s t, trimChildren ss ts with
      | some tr, some rest => some (tr :: rest)
      | _, _ => none
    else trimChildren ss (t :: ts)
termination_by sc tc => 4 * (nsize.lsize sc + nsize.lsize tc) + 3
decreasing_by
  all_goals simp only [lsize_cons]
  all_goals have h1 := nsize_pos s; have h2 := nsize_pos t; omega

end

/-! ## First-match search (`search`) -/

/-- The `bfs` branch of `search` (lines 178-189): scan each level for the
first matching node, then move one level in; the root itself is never
tested by this branch.  When `strict` is true the match is trimmed; the
`(trim_branches p target_root).getD p` rendering of that call is justified
by `trim_spec` below: a node that just matched the target always trims
without an `IndexError`, so the default branch is unreachable. -/
def searchBfs (target_root : Node) (strict : Bool) (parent_list : List Node) :
    Option Node :=
  match parent_list with
  | [] => none
  | p :: ps =>
    match (p :: ps).find? (fun parent => match_structures parent target_root)
    with
    | some parent =>
      if strict then some ((trim_branches parent target_root).getD parent)
      else some parent
    | none => searchBfs target_root strict (one_level_in (p :: ps))
termination_by nsize.lsize parent_list
decreasing_by
  exact lsize_one_level_in_lt (List.cons_ne_nil _ _)

mutual

/-- `search(source_root, target_root, strict, mode)` of XMLparse.py: the root
of the first-found structure matching the target, or `None`.  Note that the
`dfs` branch's recursive call `search(child, target_root, "dfs")` passes the
string `"dfs"` as the `strict` argument (so `strict is True` is false inside,
modelled by passing `false`) and leaves `mode` at its default `"dfs"`. -/
def search (source_root target_root : Node) (strict : Bool) (mode : String) :
    Option Node :=
  if mode == "dfs" then
    if match_structures source_root target_root then
      if strict then
        some ((trim_branches source_root target_root).getD source_root)
      else some source_root
    else searchChildLoop target_root strict source_root.children
  else if mode == "bfs" then searchBfs target_root strict source_root.children
  else none
termination_by 2 * nsize source_root
decreasing_by simp only [nsize_def]; omega

/-- The `for child in source_root` loop of the `dfs` branch of `search`
(lines 170-176).  The Python guard is `if r:`, Element truthiness: a result
element is accepted only when it is not `None` AND has at least one child
(`len(r) != 0`); a childless match coming back from the recursion is
silently skipped. -/
def searchChildLoop (target_root : Node) (strict : Bool) :
    List Node → Option Node
  | [] => none
  | child :: rest =>
    match search child target_root false "dfs" with
    | some r =>
      if r.children.length != 0 then
        if strict then some ((trim_branches r target_root).getD r)
        else some r
      else searchChildLoop target_root strict rest
    | none => searchChildLoop target_root strict rest
termination_by l => 2 * nsize.lsize l + 1
decreasing_by
  all_goals simp only [lsize_cons]
  all_goals have := nsize_pos c; omega

end

/-! ## Exhaustive search (`exhaustive_search`) -/

/-- The `for parent in parent_list` loop of the `bfs` branch of
`exhaustive_search` (lines 212-217): append every matching node of the level
to the accumulator, in level order. -/
def exSearchLevel (target_root : Node) (strict : Bool) :
    List Node → List Node → List Node
  | [], match_list => match_list
  | p :: ps, match_list =>
    exSearchLevel target_root strict ps
      (if match_structures p target_root then
        match_list ++
          [if strict then (trim_branches p target_root).getD p else p]
      else match_list)

/-- The `while len(parent_list) > 0` loop of the `bfs` branch of
`exhaustive_search` (lines 211-219); the root itself is never tested. -/
def exSearchBfs (target_root : Node) (strict : Bool)
    (parent_list match_list : List Node) : List Node :=
  match parent_list with
  | [] => match_list
  | p :: ps =>
    exSearchBfs target_root strict (one_level_in (p :: ps))
      (exSearchLevel target_root strict (p :: ps) match_list)
termination_by nsize.lsize parent_list
decreasing_by
  exact lsize_one_level_in_lt (List.cons_ne_nil _ _)

mutual

/-- `exhaustive_search(source_root, target_root, strict, mode, match_list)`
of XMLparse.py: the roots of all structures matching the target, appended to
`match_list` (the Python default `match_list=None` creates a fresh `[]`; the
claims below always pass `[]` explicitly).  `dfs` appends the root first and
then recurses into each child in order; `bfs` walks the levels below the
root. -/
def exhaustive_search (source_root target_root : Node) (strict : Bool)
    (mode : String) (match_list : List Node) : List Node :=
  if mode == "dfs" then
    exSearchChildren target_root strict source_root.children
      (if match_structures source_root target_root then
        match_list ++
          [if strict then
            (trim_branches source_root target_root).getD source_root
          else source_root]
      else match_list)
  else if mode == "bfs" then
    exSearchBfs target_root strict source_root.children match_list
  else match_list
termination_by 2 * nsize source_root
decreasing_by simp only [nsize_def]; omega

/-- The `for child in source_root` loop of the `dfs` branch of
`exhaustive_search` (lines 205-206). -/
def exSearchChildren (target_root : Node) (strict : Bool) :
    List Node → List Node → List Node
  | [], match_list => match_list
  | child :: rest, match_list =>
    exSearchChildren target_root strict rest
      (exhaustive_search child target_root strict "dfs" match_list)
termination_by l _ => 2 * nsize.lsize l + 1
decreasing_by
  all_goals simp only [lsize_cons]
  all_goals have := nsize_pos p; omega

end

/-! ## The set of nodes of a tree

`allNodes` enumerates a tree's nodes (the root and, recursively, all
descendants); it is the reference enumeration against which the two traversal
strategies are compared. -/

mutual

/-- Every node of the tree rooted at `n`: `n` itself and all descendants. -/
def allNodes (n : Node) : List Node := n :: allNodesList n.children
termination_by 2 * nsize n
decreasing_by simp only [nsize_def]; omega

/-- Every node of every tree in the forest. -/
def allNodesList : List Node → List Node
  | [] => []
  | c :: cs => allNodes c ++ allNodesList cs
termination_by l => 2 * nsize.lsize l + 1
decreasing_by
  all_goals simp only [lsize_cons]
  all_goals have := nsize_pos c; omega

end

theorem lsize_eq_zero {l : List Node} (h : nsize.lsize l = 0) : l = [] := by
  cases l with
  | nil => rfl
  | cons c cs => have := nsize_pos c; rw [lsize_cons] at h; omega

theorem allNodesList_append (a b : List Node) :
    allNodesList (a ++ b) = allNodesList a ++ allNodesList b := by
  induction a with
  | nil => simp [allNodesList]
  | cons c cs ih => simp [allNodesList, ih]

theorem any_allNodes (f : Node → Bool) (n : Node) :
    (allNodes n).any f = (f n || (allNodesList n.children).any f) := by
  rw [allNodes]; simp

theorem any_allNodesList_cons (f : Node → Bool) (c : Node) (cs : List Node) :
    (allNodesList (c :: cs)).any f = ((allNodes c).any f || (allNodesList cs).any f) := by
  rw [allNodesList]; simp

theorem any_allNodesList_one_level (f : Node → Bool) (l : List Node) :
    (allNodesList l).any f
      = (l.any f || (allNodesList (one_level_in l)).any f) := by
  induction l with
  | nil => simp [allNodesList, one_level_in]
  | cons p ps ih =>
    rw [any_allNodesList_cons, any_allNodes, ih, one_level_in,
      allNodesList_append]
    simp only [List.any_cons, List.any_append]
    cases f p <;> cases ps.any f <;>
      cases (allNodesList p.children).any f <;> simp

/-- The `bfs` level loop of `exhaustive_match` tests exactly the nodes of the
forest it starts from. -/
theorem bfsAnyLoop_eq (target_root : Node) :
    ∀ (N : Nat) (l : List Node), nsize.lsize l ≤ N →
      bfsAnyLoop target_root l
        = (allNodesList l).any (fun n => match_structures n target_root) := by
  intro N
  induction N with
  | zero =>
    intro l hl
    have : l = [] := lsize_eq_zero (Nat.le_zero.mp hl)
    subst this
    simp [bfsAnyLoop, allNodesList]
  | succ N ih =>
    intro l hl
    match l with
    | [] => simp [bfsAnyLoop, allNodesList]
    | p :: ps =>
      rw [bfsAnyLoop]
      have hrec := ih (one_level_in (p :: ps))
        (by have := lsize_one_level_in_lt (List.cons_ne_nil p ps); omega)
      rw [any_allNodesList_one_level _ (p :: ps)]
      cases h : (p :: ps).any (fun n => match_structures n target_root) with
      | true => simp [h]
      | false => simp [h, hrec]

/-- The `dfs` child loop of `exhaustive_match` tests exactly the nodes of the
forest it starts from. -/
theorem exMatchChildren_eq (target_root : Node) :
    ∀ (N : Nat) (l : List Node), nsize.lsize l ≤ N →
      exMatchChildren target_root l
        = (allNodesList l).any (fun n => match_structures n target_root) := by
  intro N
  induction N with
  | zero =>
    intro l hl
    have : l = [] := lsize_eq_zero (Nat.le_zero.mp hl)
    subst this
    simp [exMatchChildren, allNodesList]
  | succ N ih =>
    intro l hl
    match l with
    | [] => simp [exMatchChildren, allNodesList]
    | c :: cs =>
      have hc := nsize_pos c
      have hsz : nsize.lsize (c :: cs) = nsize c + nsize.lsize cs :=
        lsize_cons c cs
      have hchild : nsize.lsize c.children ≤ N := by
        have := nsize_def c; omega
      have hcs : nsize.lsize cs ≤ N := by omega
      rw [exMatchChildren, any_allNodesList_cons, any_allNodes, ih cs hcs]
      cases h : match_structures c target_root with
      | true => simp [exhaustive_match, h]
      | false =>
        simp [exhaustive_match, h, ih c.children hchild, Bool.or_assoc]

/-! ## Attribute-matcher lemmas -/

/-- `attribute_subset_match` reads only the attribute lists of its two
arguments. -/
theorem attribute_subset_match_congr (s s2 t : Node)
    (h : s.attrib = s2.attrib) :
    attribute_subset_match s t = attribute_subset_match s2 t := by
  simp [attribute_subset_match, h]

/-- If some target key is absent from the source attributes, the `try` loop
can never fall through with `True`: it either returns `False` on an earlier
key or raises `KeyError` on this one. -/
theorem attrLoop_ne_ok_true {sa : List (String × String)} {k tv : String} :
    ∀ l : List (String × String), (k, tv) ∈ l → lookupAttr sa k = none →
      attrLoop sa l ≠ .ok true := by
  intro l
  induction l with
  | nil => intro h; cases h
  | cons kv rest ih =>
    intro hmem hnone
    obtain ⟨k2, tv2⟩ := kv
    rw [attrLoop]
    rcases List.mem_cons.mp hmem with heq | hrest
    · obtain ⟨rfl, rfl⟩ := Prod.mk.injEq .. ▸ heq
      rw [hnone]
      simp
    · cases hl : lookupAttr sa k2 with
      | none => simp
      | some sv =>
        cases hm : attribute_matches tv2 sv with
        | true => simpa [hm] using ih hrest hnone
        | false => simp [hm]

/-! ## Trimmer correctness machinery -/

/-- Every node of `r` is a copy — same tag, same attributes, same text — of
some node present in `m`. -/
def copiedFrom (r m : Node) : Prop :=
  ∀ n ∈ allNodes r, ∃ n2 ∈ allNodes m,
    n.tag = n2.tag ∧ n.attrib = n2.attrib ∧ n.text = n2.text

theorem mem_allNodesList {x : Node} :
    ∀ {l : List Node}, x ∈ allNodesList l ↔ ∃ c ∈ l, x ∈ allNodes c := by
  intro l
  induction l with
  | nil => simp [allNodesList]
  | cons c cs ih => rw [allNodesList]; simp [ih]

theorem allNodes_mono {s m : Node} (h : s ∈ m.children) :
    ∀ x ∈ allNodes s, x ∈ allNodes m := by
  intro x hx
  rw [allNodes]
  exact List.mem_cons.mpr (Or.inr (mem_allNodesList.mpr ⟨s, h, hx⟩))

/-- A successful friend scan needs at least as many source children as target
children. -/
theorem setwiseScan_length :
    ∀ (sc tc : List Node), setwiseScan sc tc = true → tc.length ≤ sc.length := by
  intro sc
  induction sc with
  | nil =>
    intro tc h
    cases tc with
    | nil => simp
    | cons t ts => rw [setwiseScan] at h; cases h
  | cons s ss ih =>
    intro tc h
    cases tc with
    | nil => simp
    | cons t ts =>
      rw [setwiseScan] at h
      by_cases hm : match_structures s t = true
      · rw [if_pos hm] at h
        have := (Bool.and_eq_true ..).mp h
        simp only [decide_eq_true_eq] at this
        simp [Nat.succ_le_succ this.1]
      · rw [if_neg hm] at h
        have := ih (t :: ts) h
        simp at this ⊢
        omega

/-- A successful friend scan makes the fused trimming loop succeed, and the
trimmed children match the target children pairwise and are built from the
source children.  The hypothesis `hIH` supplies the top-level trimming fact
for the recursion (it is discharged by `trim_spec` below). -/
theorem trimChildren_of_scan (M : Nat)
    (hIH : ∀ s t : Node, nsize s ≤ M → match_structures s t = true →
      ∃ r, trim_branches s t = some r ∧ match_structures r t = true ∧
        copiedFrom r s) :
    ∀ sc tc : List Node, nsize.lsize sc ≤ M → setwiseScan sc tc = true →
      ∃ cs, trimChildren sc tc = some cs ∧
        List.Forall₂ (fun c t => match_structures c t = true) cs tc ∧
        ∀ c ∈ cs, ∃ s ∈ sc, copiedFrom c s := by
  intro sc
  induction sc with
  | nil =>
    intro tc hsz h
    cases tc with
    | nil => exact ⟨[], by rw [trimChildren], .nil, by simp⟩
    | cons t ts => rw [setwiseScan] at h; cases h
  | cons s ss ih =>
    intro tc hsz h
    have hs : nsize s ≤ M := by
      have := lsize_cons s ss; omega
    have hss : nsize.lsize ss ≤ M := by
      have := lsize_cons s ss; have := nsize_pos s; omega
    cases tc with
    | nil => exact ⟨[], by rw [trimChildren], .nil, by simp⟩
    | cons t ts =>
      rw [setwiseScan] at h
      by_cases hm : match_structures s t = true
      · rw [if_pos hm] at h
        have hscan : setwiseScan ss ts = true := ((Bool.and_eq_true ..).mp h).2
        obtain ⟨r, hr, hrm, hrc⟩ := hIH s t hs hm
        obtain ⟨cs, hcs, hf, hcopy⟩ := ih ts hss hscan
        refine ⟨r :: cs, ?_, .cons hrm hf, ?_⟩
        · rw [trimChildren, if_pos hm, hr, hcs]
        · intro c hc
          rcases List.mem_cons.mp hc with rfl | hc2
          · exact ⟨s, List.mem_cons_self .., hrc⟩
          · obtain ⟨s2, hs2, hc3⟩ := hcopy c hc2
            exact ⟨s2, List.mem_cons_of_mem _ hs2, hc3⟩
      · rw [if_neg hm] at h
        obtain ⟨cs, hcs, hf, hcopy⟩ := ih (t :: ts) hss h
        refine ⟨cs, ?_, hf, ?_⟩
        · rw [trimChildren, if_neg hm, hcs]
        · intro c hc
          obtain ⟨s2, hs2, hc3⟩ := hcopy c hc
          exact ⟨s2, List.mem_cons_of_mem _ hs2, hc3⟩

/-- Pairwise-matching children always pass the friend scan (each child is its
own friend, and equal lengths keep the capacity check happy). -/
theorem setwiseScan_of_forall₂ :
    ∀ {cs tc : List Node},
      List.Forall₂ (fun c t => match_structures c t = true) cs tc →
      setwiseScan cs tc = true := by
  intro cs tc h
  induction h with
  | nil => rw [setwiseScan]
  | @cons c t cs2 ts2 hct hrest ih =>
    rw [setwiseScan, if_pos hct]
    simp [ih, hrest.length_eq]

/-- A pairwise match of the children lifts to `setwise_match` at the nodes. -/
theorem setwise_match_of_forall₂ {r p : Node}
    (h : List.Forall₂ (fun c t => match_structures c t = true)
      r.children p.children) :
    setwise_match r p = true := by
  rw [setwise_match]
  simp only [listify_children]
  by_cases h0 : p.children.length = 0
  · simp [h0]
  · rw [if_neg (by simp [h0]), if_neg (by simp [h.length_eq])]
    exact setwiseScan_of_forall₂ h

/-- Main trimmer invariant: a matched pair always trims without an
`IndexError`, the trimmed copy still matches the target, and every node of
the trimmed copy is a copy of a node of the matched tree. -/
theorem trim_spec :
    ∀ (N : Nat) (m p : Node), nsize m ≤ N → match_structures m p = true →
      ∃ r, trim_branches m p = some r ∧ match_structures r p = true ∧
        copiedFrom r m := by
  intro N
  induction N with
  | zero => intro m p hm; have := nsize_pos m; omega
  | succ N ih =>
    intro m p hm hmatch
    rw [match_structures] at hmatch
    simp only [Bool.and_eq_true] at hmatch
    obtain ⟨⟨htag, hattr⟩, hset⟩ := hmatch
    by_cases h0 : (listify_children p).length = 0
    · -- childless target: only the top level of `m` is copied
      refine ⟨.mk m.tag m.attrib m.text [], ?_, ?_, ?_⟩
      · rw [trim_branches, if_pos (by simp [h0])]
      · rw [match_structures]
        refine (Bool.and_eq_true ..).mpr ⟨(Bool.and_eq_true ..).mpr ⟨?_, ?_⟩, ?_⟩
        · simpa [Node.tag] using htag
        · rw [attribute_subset_match_congr _ m p (by simp [Node.attrib])]
          exact hattr
        · rw [setwise_match, if_pos (by simpa [listify_children] using h0)]
      · intro n hn
        rw [allNodes] at hn
        simp only [Node.children, allNodesList, List.mem_singleton] at hn
        subst hn
        exact ⟨m, by rw [allNodes]; exact List.mem_cons_self .., by
          simp [Node.tag, Node.attrib, Node.text]⟩
    · -- target has children: the friend scan must have succeeded
      have hscan : setwiseScan m.children p.children = true := by
        rw [setwise_match] at hset
        rw [if_neg (by simpa [listify_children] using h0)] at hset
        rcases Nat.lt_or_ge (listify_children m).length
          (listify_children p).length with hlt | hge
        · rw [if_pos (by simpa using hlt)] at hset; cases hset
        · rw [if_neg (by simp [listify_children] at hge ⊢; omega)] at hset
          simpa [listify_children] using hset
      have hIH : ∀ s t : Node, nsize s ≤ N → match_structures s t = true →
          ∃ r, trim_branches s t = some r ∧ match_structures r t = true ∧
            copiedFrom r s := ih
      have hsz : nsize.lsize m.children ≤ N := by
        have := nsize_def m; omega
      obtain ⟨cs, hcs, hf, hcopy⟩ :=
        trimChildren_of_scan N hIH m.children p.children hsz hscan
      refine ⟨.mk m.tag m.attrib m.text cs, ?_, ?_, ?_⟩
      · rw [trim_branches, if_neg (by simp [h0]),
          show listify_children m = m.children from rfl,
          show listify_children p = p.children from rfl, hcs]
      · rw [match_structures]
        refine (Bool.and_eq_true ..).mpr ⟨(Bool.and_eq_true ..).mpr ⟨?_, ?_⟩, ?_⟩
        · simpa [Node.tag] using htag
        · rw [attribute_subset_match_congr _ m p (by simp [Node.attrib])]
          exact hattr
        · exact setwise_match_of_forall₂ (by simpa [Node.children] using hf)
      · intro n hn
        rw [allNodes] at hn
        simp only [Node.children] at hn
        rcases List.mem_cons.mp hn with rfl | hn2
        · exact ⟨m, by rw [allNodes]; exact List.mem_cons_self .., by
            simp [Node.tag, Node.attrib, Node.text]⟩
        · obtain ⟨c, hc, hnc⟩ := mem_allNodesList.mp hn2
          obtain ⟨s, hs, hcop⟩ := hcopy c hc
          obtain ⟨n2, hn2m, hprops⟩ := hcop n hnc
          exact ⟨n2, allNodes_mono hs n2 hn2m, hprops⟩

/-- A failed friend scan makes the fused trimming loop run off the end of the
matched children: the `IndexError`. -/
theorem trimChildren_none_of_scan_false :
    ∀ (sc tc : List Node), setwiseScan sc tc = false →
      trimChildren sc tc = none := by
  intro sc
  induction sc with
  | nil =>
    intro tc h
    cases tc with
    | nil => rw [setwiseScan] at h; cases h
    | cons t ts => rw [trimChildren]
  | cons s ss ih =>
    intro tc h
    cases tc with
    | nil => rw [setwiseScan] at h; cases h
    | cons t ts =>
      rw [setwiseScan] at h
      by_cases hm : match_structures s t = true
      · rw [if_pos hm] at h
        have hscan : setwiseScan ss ts = false := by
          cases hscan : setwiseScan ss ts with
          | false => rfl
          | true =>
            have hlen := setwiseScan_length ss ts hscan
            rw [hscan] at h
            simp at h
            omega
        rw [trimChildren, if_pos hm, ih ts hscan]
        cases trim_branches s t <;> rfl
      · rw [if_neg hm] at h
        rw [trimChildren, if_neg hm, ih (t :: ts) h]

/-- `trim_branches` returns a tree exactly when the friend scan over the
children succeeds: the trimmer never validates the root's tag or attributes,
and its only failure mode is the `IndexError` from a failed scan. -/
theorem trim_isSome_eq_setwise (m p : Node) :
    (trim_branches m p).isSome = setwise_match m p := by
  by_cases h0 : (listify_children p).length = 0
  · rw [trim_branches, if_pos (by simp [h0]), setwise_match, if_pos (by simp [h0])]
    rfl
  · rw [trim_branches, if_neg (by simp [h0])]
    cases hset : setwise_match m p with
    | true =>
      have hscan : setwiseScan m.children p.children = true := by
        rw [setwise_match, if_neg (by simp [h0])] at hset
        rcases Nat.lt_or_ge (listify_children m).length
          (listify_children p).length with hlt | hge
        · rw [if_pos (by simpa using hlt)] at hset; cases hset
        · rw [if_neg (by simp [listify_children] at hge ⊢; omega)] at hset
          simpa [listify_children] using hset
      obtain ⟨cs, hcs, _, _⟩ := trimChildren_of_scan (nsize.lsize m.children)
        (fun s t hs hm => trim_spec (nsize s) s t le_rfl hm)
        m.children p.children le_rfl hscan
      simp [listify_children, hcs]
    | false =>
      have hscan : setwiseScan m.children p.children = false := by
        cases hscan : setwiseScan m.children p.children with
        | false => rfl
        | true =>
          have hlen := setwiseScan_length m.children p.children hscan
          rw [setwise_match, if_neg (by simp [h0]),
            if_neg (by simp [listify_children]; omega)] at hset
          simp only [listify_children] at hset
          rw [hscan] at hset
          cases hset
      rw [show listify_children m = m.children from rfl,
        show listify_children p = p.children from rfl,
        trimChildren_none_of_scan_false m.children p.children hscan]
      rfl

/-! ## Characterizing the wrapper test of the attribute matcher -/

/-- Does a closing brace appear before any newline?  This is exactly what
`.*\x7d` can consume after the prefix `re\x7b`. -/
def closesNoNewline : List Char → Bool
  | [] => false
  | c :: cs =>
    if c = '\x7d' then true
    else if c = Char.ofNat 10 then false
    else closesNoNewline cs

theorem rmatch_dotStar_close (s : List Char) :
    rmatch [.dotStar, .lit '\x7d'] s = closesNoNewline s := by
  induction s with
  | nil => rw [rmatch, rmatch, closesNoNewline]
  | cons x xs ih =>
    rw [rmatch, rmatch, closesNoNewline, ih]
    by_cases hx : x = '\x7d'
    · simp [hx, rmatch]
    · by_cases hnl : x = Char.ofNat 10
      · simp [hnl, hx, show ¬(Char.ofNat 10 = '\x7d') from by decide]
      · simp [hx, hnl]

theorem wrapperPattern_tokens :
    rtokenize (stripCaret wrapperPattern.data)
      = [.lit 'r', .lit 'e', .lit '\x7b', .dotStar, .lit '\x7d'] := by
  decide

/-- The wrapper check of line 82 (`re.match("re\x7b.*\x7d", tv)`) holds
exactly when `tv` STARTS with `re\x7b` and a closing brace follows before any
newline — a prefix test, not a whole-string test. -/
theorem wrapperTest_eq (tv : String) :
    reMatch wrapperPattern tv
      = (decide (tv.data.take 3 = ['r', 'e', '\x7b'])
          && closesNoNewline (tv.data.drop 3)) := by
  rw [reMatch, wrapperPattern_tokens]
  rcases hs : tv.data with _ | ⟨a, _ | ⟨b, _ | ⟨c, rest⟩⟩⟩
  · rw [rmatch]; simp
  · rw [rmatch, rmatch]; simp
  · rw [rmatch]
    by_cases ha : a = 'r'
    · rw [rmatch, rmatch]; simp [ha]
    · simp [ha]
  · rw [rmatch]
    by_cases ha : a = 'r'
    · rw [rmatch]
      by_cases hb : b = 'e'
      · rw [rmatch, rmatch_dotStar_close]
        by_cases hc : c = '\x7b' <;> simp [ha, hb, hc]
      · simp [ha, hb]
    · simp [ha]

/-! # The claims

Concrete trees used by the claim theorems. -/

/-- The source tree `<a><b/></a>`. -/
def bugSource : Node := .mk "a" [] none [.mk "b" [] none []]

/-- The pattern `<b/>`. -/
def bugTarget : Node := .mk "b" [] none []

/-- The one-node tree `<a/>`. -/
def rootOnly : Node := .mk "a" [] none []

/-- The source `<a><c/><b/></a>` of the order-sensitivity example. -/
def orderSource : Node :=
  .mk "a" [] none [.mk "c" [] none [], .mk "b" [] none []]

/-- The pattern `<a><b/><c/></a>` of the order-sensitivity example. -/
def orderTarget : Node :=
  .mk "a" [] none [.mk "b" [] none [], .mk "c" [] none []]

/-- An element whose attribute `k` has the literal value `re\x7ba\x7db` —
a string that merely STARTS with the wrapper shape (`re\x7ba\x7d` is a
prefix) without being of the form `re\x7b...\x7d` as a whole, since it ends
in `b`, not in `\x7d`. -/
def prefixWrapped : Node := .mk "x" [("k", "re\x7ba\x7db")] none []

/-- C1: as stated the claim is FALSE on the code, and the flaw is a code bug:
on source `<a><b/></a>` and pattern `<b/>` under the `dfs` strategy,
`exhaustive_match` is true and `exhaustive_search` returns the matching
`<b/>`, yet `search` returns `None` — the `if r:` guard of `search`'s child
loop uses Element truthiness, so the childless match `<b/>` coming back from
the recursion is discarded.  This contradicts `search`'s own stated purpose
("return the root of first-found structure matching the target"). -/
theorem C1_truthiness_bug :
    exhaustive_match bugSource bugTarget "dfs" = true ∧
    exhaustive_search bugSource bugTarget false "dfs" [] = [.mk "b" [] none []] ∧
    search bugSource bugTarget false "dfs" = none := by
  refine ⟨?_, ?_, ?_⟩ <;>
    simp [exhaustive_match, exMatchChildren, exhaustive_search,
      exSearchChildren, search, searchChildLoop, match_structures,
      attribute_subset_match, setwise_match, listify_children, Node.tag,
      Node.attrib, Node.children, bugSource, bugTarget]

/-- C2: as stated the claim is FALSE on the code, and the flaw is a code bug:
on the one-node source `<a/>` and pattern `<a/>`, depth-first
`exhaustive_search` returns `[<a/>]` but breadth-first `exhaustive_search`
starts from `list(source_root)` — the children — and never tests the root,
returning `[]`; the sibling `exhaustive_match` in the same file does test the
root first, as the spec requires of every traversal. -/
theorem C2_bfs_misses_root :
    exhaustive_search rootOnly rootOnly false "dfs" [] = [rootOnly] ∧
    exhaustive_search rootOnly rootOnly false "bfs" [] = [] ∧
    exhaustive_match rootOnly rootOnly "bfs" = true := by
  refine ⟨?_, ?_, ?_⟩ <;>
    simp [exhaustive_search, exSearchChildren, exSearchBfs, exSearchLevel,
      exhaustive_match, match_structures, attribute_subset_match,
      setwise_match, listify_children, Node.tag, Node.attrib, Node.children,
      rootOnly]

/-- C3: CONFIRMED.  When `match_structures m p` holds, `trim_branches m p`
returns a tree `r` (no `IndexError`), `r` still satisfies
`match_structures r p`, and every node of `r` is a copy — same tag,
attributes and text — of a node present in `m`. -/
theorem C3_trim_preserves_match (m p : Node)
    (h : match_structures m p = true) :
    ∃ r, trim_branches m p = some r ∧ match_structures r p = true ∧
      copiedFrom r m :=
  trim_spec (nsize m) m p le_rfl h

/-- Witness for C3 at the source `<a><c/><b/></a>` and pattern
`<a><b/></a>`. -/
theorem C3_trim_preserves_match_witness :
    match_structures orderSource (.mk "a" [] none [.mk "b" [] none []]) = true ∧
    ∃ r, trim_branches orderSource (.mk "a" [] none [.mk "b" [] none []])
        = some r ∧
      match_structures r (.mk "a" [] none [.mk "b" [] none []]) = true ∧
      copiedFrom r orderSource :=
  ⟨by
    simp [match_structures, attribute_subset_match, setwise_match,
      setwiseScan, listify_children, Node.tag, Node.attrib, Node.children,
      orderSource],
   C3_trim_preserves_match orderSource (.mk "a" [] none [.mk "b" [] none []])
    (by
      simp [match_structures, attribute_subset_match, setwise_match,
        setwiseScan, listify_children, Node.tag, Node.attrib, Node.children,
        orderSource])⟩

/-- C4 counterexample: the claim says the value `re\x7ba\x7db` (which is not
of the wrapper form `re\x7b...\x7d` in its ENTIRE string form, as it ends in
`b`) must be compared by literal string equality, so comparing the attribute
against itself would succeed.  The code instead takes the regex branch —
`re.match` only anchors the wrapper test at the start — and fails. -/
theorem C4_counterexample :
    ("re\x7ba\x7db" == "re\x7ba\x7db") = true ∧
    attribute_subset_match prefixWrapped prefixWrapped = false := by
  constructor
  · rfl
  · simp [attribute_subset_match, attrLoop, lookupAttr, attribute_matches,
      reMatch, rtokenize, rmatch, stripCaret, wrapperPattern, pySlice3m1,
      Node.attrib, prefixWrapped]

/-- C4 (amended): a pattern attribute value is compared by literal string
equality unless its string form STARTS WITH `re\x7b` and a closing brace
follows before any newline (the wrapper test is `re.match`, anchored only at
the start, not a whole-string test); in the wrapped case the characters
`tv[3:-1]` — everything after `re\x7b` except the final character of the
value, whatever it is — are used as a regular expression tested against the
source value with match-from-the-start semantics. -/
theorem C4_wrapper_is_prefix_test (tv sv : String) :
    attribute_matches tv sv
      = if decide (tv.data.take 3 = ['r', 'e', '\x7b'])
            && closesNoNewline (tv.data.drop 3)
        then reMatch (pySlice3m1 tv) sv
        else tv == sv := by
  rw [attribute_matches, wrapperTest_eq]

/-- C5 counterexample: the pair `(<x/>, <y/>)` does not satisfy
`match_structures` (the tags differ), yet `trim_branches` happily returns
the copy `<x/>` instead of signalling an internal-consistency error. -/
theorem C5_counterexample :
    match_structures (.mk "x" [] none []) (.mk "y" [] none []) = false ∧
    trim_branches (.mk "x" [] none []) (.mk "y" [] none [])
      = some (.mk "x" [] none []) := by
  constructor <;>
    simp [match_structures, trim_branches, attribute_subset_match,
      setwise_match, listify_children, Node.tag, Node.attrib, Node.text,
      Node.children]

/-- C5 (amended): `trim_branches` fails — the uncaught `IndexError`,
modelled by `none` — exactly when the greedy child-subset scan over the
pair's children fails; it never validates the root's tag or attributes, so a
non-matching pair whose children still pass `setwise_match` is trimmed
without any error being signalled. -/
theorem C5_trim_fails_iff_scan_fails (m p : Node) :
    (trim_branches m p).isSome = setwise_match m p :=
  trim_isSome_eq_setwise m p

/-- C6: CONFIRMED.  For source `<a><c/><b/></a>` and pattern
`<a><b/><c/></a>`, `match_structures` is false even though a child with each
required tag exists, because friends must be found in matching relative
order. -/
theorem C6_order_sensitivity :
    match_structures orderSource orderTarget = false ∧
    orderSource.children.map Node.tag = ["c", "b"] ∧
    orderTarget.children.map Node.tag = ["b", "c"] := by
  refine ⟨?_, by simp [orderSource, Node.children, Node.tag], by
    simp [orderTarget, Node.children, Node.tag]⟩
  simp [match_structures, attribute_subset_match, setwise_match, setwiseScan,
    listify_children, Node.tag, Node.attrib, Node.children, orderSource,
    orderTarget]

/-- C7: CONFIRMED.  For a pattern with zero children the child-subset check
is vacuously true, so `match_structures s p` reduces to tag equality plus
the attribute subset match. -/
theorem C7_childless_pattern (s p : Node) (h : p.children = []) :
    match_structures s p = (s.tag == p.tag && attribute_subset_match s p) := by
  rw [match_structures, setwise_match,
    if_pos (by simp [listify_children, h])]
  simp [Bool.and_true]

/-- Witness for C7 at `s = <q a="b"><z/></q>`, `p = <q/>`. -/
theorem C7_childless_pattern_witness :
    match_structures (.mk "q" [("a", "b")] none [.mk "z" [] none []])
        (.mk "q" [] none [])
      = ((Node.mk "q" [("a", "b")] none [.mk "z" [] none []]).tag
          == (Node.mk "q" [] none []).tag
        && attribute_subset_match
          (.mk "q" [("a", "b")] none [.mk "z" [] none []])
          (.mk "q" [] none [])) :=
  C7_childless_pattern (.mk "q" [("a", "b")] none [.mk "z" [] none []])
    (.mk "q" [] none []) rfl

/-- C8: CONFIRMED.  When some key of the pattern's attribute dictionary is
absent from the source's, `attribute_subset_match` returns the plain value
`false`: the `KeyError` is caught by the handler inside the function (the
embedding's `Except` never escapes `attribute_subset_match`), so no
exception reaches the caller. -/
theorem C8_missing_key_is_false (s t : Node) (k tv : String)
    (hmem : (k, tv) ∈ t.attrib) (hnone : lookupAttr s.attrib k = none) :
    attribute_subset_match s t = false := by
  rw [attribute_subset_match,
    if_neg (by simp [List.length_eq_zero, List.ne_nil_of_mem hmem])]
  by_cases hlen : s.attrib.length < t.attrib.length
  · rw [if_pos hlen]
  · rw [if_neg hlen]
    cases hloop : attrLoop s.attrib t.attrib with
    | error e => rfl
    | ok b =>
      cases b with
      | true => exact absurd hloop (attrLoop_ne_ok_true t.attrib hmem hnone)
      | false => rfl

/-- Witness for C8: the pattern wants key `k`, the source only has `j`. -/
theorem C8_missing_key_is_false_witness :
    attribute_subset_match (.mk "n" [("j", "v")] none [])
      (.mk "n" [("k", "v")] none []) = false :=
  C8_missing_key_is_false (.mk "n" [("j", "v")] none [])
    (.mk "n" [("k", "v")] none []) "k" "v"
    (by simp [Node.attrib]) (by simp [Node.attrib, lookupAttr])

/-- C10: CONFIRMED.  `exhaustive_match` returns the same boolean under
`bfs` and `dfs`, and both are true exactly when some node of the source
tree — the root included, tested before the mode dispatch — satisfies
`match_structures` against the target. -/
theorem C10_exhaustive_match_modes_agree (s t : Node) :
    exhaustive_match s t "bfs" = exhaustive_match s t "dfs" ∧
    exhaustive_match s t "bfs"
      = (allNodes s).any (fun n => match_structures n t) := by
  have hbfs : exhaustive_match s t "bfs"
      = (allNodes s).any (fun n => match_structures n t) := by
    rw [exhaustive_match, any_allNodes]
    cases h : match_structures s t with
    | true => simp [h]
    | false =>
      simp [h, bfsAnyLoop_eq t (nsize.lsize s.children) s.children le_rfl]
  have hdfs : exhaustive_match s t "dfs"
      = (allNodes s).any (fun n => match_structures n t) := by
    rw [exhaustive_match, any_allNodes]
    cases h : match_structures s t with
    | true => simp [h]
    | false =>
      simp [h, exMatchChildren_eq t (nsize.lsize s.children) s.children le_rfl]
  exact ⟨hbfs.trans hdfs.symm, hbfs⟩
